import Mathlib

/- Verification of the context-continuity scripts
   (skills/context-continuity/scripts/*.py).

   Conventions of the embedding:
   - Python strings are Lean `String`s; the character-based helpers below
     (`strTrim`, `strLower`, `strTake`, `charListLt`) mirror the Python
     character-level `str.strip()`, `str.lower()`, slicing and `<`,
     because the corresponding core Lean functions are byte-based.
   - A JSON field whose value is falsy (`None`, `""`, `[]`, `{}`) is dropped
     from the canonical form before hashing; this is modelled by `Option`
     fields (`none` = absent) and by empty lists.
   - `sha256` digests are abstracted by an explicit digest-function argument
     (`hashFn`); nothing proved here depends on the internals of sha256.
   - File-system paths, clock readings and generated ids are explicit
     arguments, so every operation is a pure function of its inputs. -/

/-- Character-level model of Python `str.strip()` (drop leading and trailing
whitespace). -/
def strTrim (s : String) : String :=
  String.mk (((s.data.dropWhile Char.isWhitespace).reverse.dropWhile Char.isWhitespace).reverse)

/-- Character-level model of Python `str.lower()` (ASCII case folding, which
covers every string these scripts produce). -/
def strLower (s : String) : String := String.mk (s.data.map Char.toLower)

/-- Character-level model of Python slicing `s[:n]`. -/
def strTake (s : String) (n : Nat) : String := String.mk (s.data.take n)

/-- Code-point lexicographic comparison, the Python `<` on strings. -/
def charListLt : List Char → List Char → Bool
  | [], [] => false
  | [], _ :: _ => true
  | _ :: _, [] => false
  | a :: as, b :: bs =>
    if a.toNat < b.toNat then true
    else if b.toNat < a.toNat then false
    else charListLt as bs

/-- The Python membership test `needle in hay` on character lists. -/
def infix_of : List Char → List Char → Bool
  | needle, [] => needle.isEmpty
  | needle, c :: t => needle.isPrefixOf (c :: t) || infix_of needle t

/-- The Python substring test `needle in hay` on strings. -/
def str_contains (hay needle : String) : Bool := infix_of needle.data hay.data

/-- Stable insertion of `x` into `l`: `x` is placed before the first element
`y` with `le x y`.  Used by `sortBy`. -/
def insort (le : α → α → Bool) (x : α) : List α → List α
  | [] => [x]
  | y :: ys => if le x y then x :: y :: ys else y :: insort le x ys

/-- Stable sort with respect to the total preorder `le`; models the stable
Python `list.sort` / `sorted`. -/
def sortBy (le : α → α → Bool) (l : List α) : List α := l.foldr (insort le) []

/-- A JSON string field as stored in the canonical form: the field is dropped
when the value is empty (`v not in (None, [], {}, "")`). -/
def optStr (s : String) : Option String := if s = "" then none else some s

/-- memory_store.unique_keep_order: deduplicate, keeping first occurrences in
insertion order. -/
def unique_keep_order (items : List String) : List String :=
  items.foldl (fun acc item => if item ∈ acc then acc else acc ++ [item]) []

/-- The list fields of an event: `[p.strip() for p in items if p and p.strip()]`
followed by `unique_keep_order` (memory_store.append_event). -/
def clean_list (items : List String) : List String :=
  unique_keep_order ((items.filter (fun p => strTrim p ≠ "")).map strTrim)

/-- memory_store.approx_tokens: `max(1, (len(text) + 3) // 4)`. -/
def approx_tokens (text : String) : Nat := max 1 ((text.length + 3) / 4)

/-- Python slice `l[-n:]` for `n > 0`. -/
def takeLast (n : Nat) (l : List α) : List α := l.drop (l.length - n)

/- ## Ledger append (memory_store.append_event) -/

/-- The canonical form of a ledger event: the JSON object that is serialized
and hashed, with every falsy field removed (`memory_store.append_event`,
`event_no_hash = {k: v for k, v in ... if v not in (None, [], {}, "")}`).
`none` / `[]` mean the key is absent. -/
structure CanonEvent where
  schema : Option String
  seq : Option Nat
  event_id : Option String
  timestamp : Option String
  repo_root : Option String
  repo_id : Option String
  kind : Option String
  status : Option String
  summary : Option String
  source : Option String
  task : Option String
  paths : List String
  symbols : List String
  commands : List String
  refs : List String
  payload : List (String × String)
  prev_hash : Option String
deriving DecidableEq

/-- A stored ledger line: the canonical form plus the `hash` field computed
over it (`event["hash"] = event_hash`). -/
structure LedgerEvent where
  canon : CanonEvent
  hash : String
deriving DecidableEq

/-- The caller-supplied fields of one append call (the keyword arguments of
`memory_store.append_event`). -/
structure AppendInput where
  kind : String
  status : String
  summary : String
  source : String
  task : Option String
  paths : List String
  symbols : List String
  commands : List String
  refs : List String
  payload : List (String × String)
deriving DecidableEq

/-- One append call together with the environment-derived values that the
operation reads (generated id, clock reading, repo identity). -/
structure AppendCall where
  inp : AppendInput
  event_id : String
  timestamp : String
  repo_root : String
  repo_id : String
deriving DecidableEq

/-- memory_store.append_event, the record-construction part: read the last
record to obtain `prev_hash` and `seq`, build the canonical form with falsy
fields removed, and hash it with the `hash` field excluded.  `hashFn`
abstracts `hash_event = sha256(stable_json(·))`. -/
def append_record (hashFn : CanonEvent → String) (ledger : List LedgerEvent)
    (inp : AppendInput) (eventId ts repoRoot repoId : String) : LedgerEvent :=
  let last := ledger.getLast?
  let prevHash : String :=
    match last with
    | some l => if l.hash = "" then "" else l.hash
    | none => ""
  let seq : Nat :=
    match last with
    | some l =>
      match l.canon.seq with
      | some n => n + 1
      | none => ledger.length + 1
    | none => ledger.length + 1
  let canon : CanonEvent :=
    { schema := optStr "context-continuity-event-v1"
      seq := some seq
      event_id := optStr eventId
      timestamp := optStr ts
      repo_root := optStr repoRoot
      repo_id := optStr repoId
      kind := optStr (strTrim inp.kind)
      status := optStr (strTrim inp.status)
      summary := optStr (strTrim inp.summary)
      source := optStr (strTrim inp.source)
      task := inp.task.bind (fun t => optStr (strTrim t))
      paths := clean_list inp.paths
      symbols := clean_list inp.symbols
      commands := clean_list inp.commands
      refs := clean_list inp.refs
      payload := inp.payload
      prev_hash := optStr prevHash }
  { canon := canon, hash := hashFn canon }

/-- memory_store.append_event: the new serialized record is appended as one
line at the end of the ledger file. -/
def append_event (hashFn : CanonEvent → String) (ledger : List LedgerEvent)
    (inp : AppendInput) (eventId ts repoRoot repoId : String) : List LedgerEvent :=
  ledger ++ [append_record hashFn ledger inp eventId ts repoRoot repoId]

/-- One append call applied to a ledger state. -/
def append_call (hashFn : CanonEvent → String) (ledger : List LedgerEvent)
    (c : AppendCall) : List LedgerEvent :=
  append_event hashFn ledger c.inp c.event_id c.timestamp c.repo_root c.repo_id

/-- A ledger file produced solely by successive append operations starting
from an empty or absent file. -/
def build_ledger (hashFn : CanonEvent → String) (calls : List AppendCall) :
    List LedgerEvent :=
  calls.foldl (append_call hashFn) []

/-- The chain invariant of the spec: every event after the first links to its
hash of its predecessor, and every stored hash is the digest of the very
canonical form (which excludes the hash field). -/
def chain_inv (hashFn : CanonEvent → String) (L : List LedgerEvent) : Prop :=
  (∀ i (h1 : i + 1 < L.length),
      (L.get ⟨i + 1, h1⟩).canon.prev_hash
        = some ((L.get ⟨i, Nat.lt_of_succ_lt h1⟩).hash))
  ∧ (∀ i (h : i < L.length),
      (L.get ⟨i, h⟩).hash = hashFn (L.get ⟨i, h⟩).canon)

/- ## Chain repair (repair_events_chain.normalize_chain) -/

/-- A parsed ledger line as `repair_events_chain.py` sees it: the three chain
fields, plus `rest`, an abstract bundle of every other field of the record. -/
structure RawEvent (α : Type) where
  rest : α
  seq : Option Int
  prev_hash : Option String
  hash : Option String
deriving DecidableEq

/-- repair_events_chain.normalize_chain, one step at a time.  `H r s p`
abstracts `hash_event` on the normalized record with fields `rest = r`,
`seq = s` and (optional) `prev_hash = p`; the `hash` key has been popped
before hashing, exactly as in the source. -/
def normalize_chain_aux (H : α → Int → Option String → String) (prev : String)
    (seq : Int) : List (RawEvent α) → List (RawEvent α)
  | [] => []
  | e :: rest =>
    let seq2 := seq + 1
    let prevOpt : Option String := if prev = "" then none else some prev
    let newHash := H e.rest seq2 prevOpt
    { rest := e.rest, seq := some seq2, prev_hash := prevOpt, hash := some newHash }
      :: normalize_chain_aux H newHash seq2 rest

/-- repair_events_chain.normalize_chain: rebuild `seq`, `prev_hash`, `hash`
top to bottom, leaving all other fields untouched. -/
def normalize_chain (H : α → Int → Option String → String)
    (events : List (RawEvent α)) : List (RawEvent α) :=
  normalize_chain_aux H "" 0 events

/-- repair_events_chain.main: `changed = any(events[i] != repaired[i] ...)`. -/
def chain_changed [DecidableEq α] (H : α → Int → Option String → String)
    (events : List (RawEvent α)) : Bool :=
  (events.zip (normalize_chain H events)).any (fun p => decide (p.1 ≠ p.2))

/- ## Branch graph (context_ops.py) -/

/-- The ref set (`refs.json`): the active branch plus the branch → head map.
The association list keeps Python-dict insertion order; a `none` head is a
branch with no commits (JSON `null`). -/
structure Refs where
  active_branch : String
  branches : List (String × Option String)
deriving DecidableEq

/-- Python dict assignment `branches[k] = v`: replace in place if the key
exists, otherwise append. -/
def setBranch (bs : List (String × Option String)) (k : String)
    (v : Option String) : List (String × Option String) :=
  match bs with
  | [] => [(k, v)]
  | (k0, v0) :: rest =>
    if k0 = k then (k, v) :: rest else (k0, v0) :: setBranch rest k v

/-- context_ops.main line `active = str(refs.get("active_branch") or "main")`. -/
def activeOf (refs : Refs) : String :=
  if refs.active_branch = "" then "main" else refs.active_branch

/-- Python truthiness of a head value of type `str | None`. -/
def truthyHead : Option String → Bool
  | none => false
  | some s => s ≠ ""

/-- context_ops._resolve_from_ref: empty start point resolves to the active
head of the active branch, a known branch name resolves to the head of that
branch, and any
other string is returned verbatim as a literal commit id. -/
def resolve_from_ref (refs : Refs) (raw_from : String) : Option String :=
  let candidate := strTrim raw_from
  if candidate = "" then (refs.branches.lookup (activeOf refs)).join
  else if (refs.branches.lookup candidate).isSome then
    (refs.branches.lookup candidate).join
  else some candidate

/-- Outcome of the `branch` action: whether it succeeded (exit 0 vs exit 2),
the resulting ref set, and the head the new branch was given. -/
structure BranchResult where
  ok : Bool
  refs : Refs
  head : Option String
deriving DecidableEq

/-- context_ops.main, `--action branch`: fail on an empty or already existing
name, otherwise resolve the start point and record the new branch.  The
action never consults the commit store. -/
def branch_action (refs : Refs) (nameRaw fromRaw : String) : BranchResult :=
  let branch_name := strTrim nameRaw
  if branch_name = "" then { ok := false, refs := refs, head := none }
  else if (refs.branches.lookup branch_name).isSome then
    { ok := false, refs := refs, head := none }
  else
    let from_head := resolve_from_ref refs fromRaw
    { ok := true
      refs := { refs with branches := setBranch refs.branches branch_name from_head }
      head := from_head }

/-- Outcome of the `merge` action: success flag (exit 0 vs exit 2), whether
the documented no-op path was taken, the resulting ref set, and the commit
files written (commit id with its parent list; empty when nothing was
written). -/
structure MergeRes where
  ok : Bool
  noop : Bool
  refs : Refs
  commits : List (String × List String)
deriving DecidableEq

/-- context_ops.main, `--action merge`.  `cid` abstracts the generated
commit id (digest + timestamp).  Mirrors the source order of checks: empty
source, unknown source, unknown target, headless source, equal heads
(documented no-op), then the two-parent commit with
`parents = [head for head in [target_head, source_head] if head]`,
advancing the target head and making the target active. -/
def merge_action (refs : Refs) (sourceRaw targetRaw cid : String) : MergeRes :=
  let source := strTrim sourceRaw
  let target := if strTrim targetRaw = "" then activeOf refs else strTrim targetRaw
  if source = "" then ⟨false, false, refs, []⟩
  else if (refs.branches.lookup source).isSome = false then ⟨false, false, refs, []⟩
  else if (refs.branches.lookup target).isSome = false then ⟨false, false, refs, []⟩
  else
    let source_head := (refs.branches.lookup source).join
    let target_head := (refs.branches.lookup target).join
    if truthyHead source_head = false then ⟨false, false, refs, []⟩
    else if source_head = target_head then ⟨true, true, refs, []⟩
    else
      let parents := ([target_head, source_head].filterMap id).filter (fun h => h ≠ "")
      ⟨true, false,
        { active_branch := target,
          branches := setBranch refs.branches target (some cid) },
        [(cid, parents)]⟩

/- ## Context compiler (rehydrate.py) -/

/-- rehydrate.main: `block = f"## {title}\n\n{body.strip()}\n"`. -/
def block_text (title body : String) : String :=
  "## " ++ title ++ "\n\n" ++ strTrim body ++ "\n"

/-- Result of the greedy packing loop of rehydrate.main: the planner trace
(title, cost, included) in candidate order, the included block texts in
order, the omitted titles in order, and the final running token total. -/
structure PackOut where
  planner : List (String × Nat × Bool)
  chunks : List String
  omitted : List String
  used : Nat
deriving DecidableEq

/-- The greedy packing loop of rehydrate.main (`for title, body, priority in
block_candidates`): blocks with a blank body are skipped silently; otherwise
a block is included iff the running total plus its cost stays at or under
the budget, and skipped whole otherwise.  `blocks` is the candidate list
already sorted by descending priority, `used` the running total so far
(initially the cost of the header). -/
def pack_blocks (budget : Nat) (used : Nat) :
    List (String × String) → PackOut
  | [] => ⟨[], [], [], used⟩
  | (title, body) :: rest =>
    if strTrim body = "" then pack_blocks budget used rest
    else
      let block := block_text title body
      let cost := approx_tokens block
      if used + cost ≤ budget then
        let r := pack_blocks budget (used + cost) rest
        ⟨(title, cost, true) :: r.planner, block :: r.chunks, r.omitted, r.used⟩
      else
        let r := pack_blocks budget used rest
        ⟨(title, cost, false) :: r.planner, r.chunks, title :: r.omitted, r.used⟩

/-- rehydrate.main: the trailing budget-summary footer, built from the final
running total and the omitted titles after the packing loop finished. -/
def footer_text (used : Nat) (omitted : List String) (events_path : String) :
    String :=
  "## Budget Summary\n\n- Approx tokens used: `" ++ toString used
    ++ "`\n- Blocks omitted by budget: `"
    ++ (if omitted.isEmpty then "none" else String.intercalate ", " omitted)
    ++ "`\n- Evidence source: `" ++ events_path ++ "`\n"

/-- rehydrate.main, document assembly: the chunk list is the header, then the
included blocks in order, then the footer (`selected_blocks.append(footer)`),
and the reported total is the running total, to which the cost of the
footer is never added.  Returns (chunks, used_tokens). -/
def compile_chunks (budget : Nat) (header : String)
    (blocks : List (String × String)) (events_path : String) :
    List String × Nat :=
  let r := pack_blocks budget (approx_tokens header) blocks
  (header :: r.chunks ++ [footer_text r.used r.omitted events_path], r.used)

/-- Python `str.rstrip()`. -/
def rstrip (s : String) : String :=
  String.mk ((s.data.reverse.dropWhile Char.isWhitespace).reverse)

/-- rehydrate.main: `output = "\n".join(selected_blocks).rstrip() + "\n"`. -/
def compile_output (budget : Nat) (header : String)
    (blocks : List (String × String)) (events_path : String) : String × Nat :=
  let c := compile_chunks budget header blocks events_path
  (rstrip (String.intercalate "\n" c.1) ++ "\n", c.2)

/-- A ledger event as the compiler and the aggregator load it
(`load_events`): the schema fields they read, with defaults already the
JSON-level values (`""` / `[]` for absent). -/
structure LEvent where
  seq : Nat
  timestamp : String
  kind : String
  status : String
  summary : String
  task : String
  paths : List String
  symbols : List String
  commands : List String
  hash : String
deriving DecidableEq

/-- rehydrate._kind_bonus. -/
def kind_bonus (kind : String) : Nat :=
  if kind = "risk" ∨ kind = "incident" ∨ kind = "failure" then 12
  else if kind = "decision" ∨ kind = "typed-memory" ∨ kind = "automation" then 8
  else if kind = "test" ∨ kind = "verify" ∨ kind = "benchmark" then 7
  else 0

/-- rehydrate.event_score: the searchable haystack, the lower-cased join of
summary, task, kind, paths and symbols. -/
def haystack_of (e : LEvent) : String :=
  strLower (String.intercalate " "
    [e.summary, e.task, e.kind,
      String.intercalate " " e.paths, String.intercalate " " e.symbols])

/-- rehydrate.event_score: recency score `max(0, 28 - recency_rank)` (Nat
subtraction is already clamped at 0), plus status bonus, kind bonus, 5 per
matching query term and 9 for a verbatim (case-insensitive) task-focus hit. -/
def event_score (e : LEvent) (recency_rank : Nat) (terms : List String)
    (task_focus : String) : Nat :=
  let base := 28 - recency_rank
  let status := strLower e.status
  let sb : Nat :=
    if status = "failure" then 22
    else if status = "warning" then 14
    else if status = "success" then 7
    else 0
  let kb := kind_bonus (strLower (strTrim e.kind))
  let hay := haystack_of e
  let termScore := 5 * (terms.filter (fun t => str_contains hay t)).length
  let taskScore :=
    if task_focus ≠ "" ∧ str_contains hay (strLower task_focus) = true then 9
    else 0
  base + sb + kb + termScore + taskScore

/-- rehydrate.main: `scored.append((score, -idx, event, trace))` over
`enumerate(reversed(events))`: the key is (score, -recency_rank). -/
def scored_events (events : List LEvent) (terms : List String)
    (task_focus : String) : List ((Nat × Int) × LEvent) :=
  events.reverse.enum.map
    (fun p => ((event_score p.2 p.1 terms task_focus, -(p.1 : Int)), p.2))

/-- The sort key comparison of `scored.sort(key=..., reverse=True)`:
descending score, ties broken by larger `-idx`, i.e. toward more recent
events. -/
def key_ge (a b : (Nat × Int) × LEvent) : Bool :=
  decide (b.1.1 < a.1.1 ∨ (a.1.1 = b.1.1 ∧ b.1.2 ≤ a.1.2))

/-- rehydrate.main: the fully ranked event list. -/
def rank_events (events : List LEvent) (terms : List String)
    (task_focus : String) : List ((Nat × Int) × LEvent) :=
  sortBy key_ge (scored_events events terms task_focus)

/-- rehydrate.main: `selected = scored[:max_events]`, keeping the ranked
order; the rendered block walks this selection as-is. -/
def select_events (events : List LEvent) (terms : List String)
    (task_focus : String) (max_events : Nat) : List LEvent :=
  ((rank_events events terms task_focus).take max_events).map (fun p => p.2)

/-- rehydrate.render_event_line. -/
def render_event_line (e : LEvent) : String :=
  let kind := if e.kind = "" then "note" else e.kind
  let status := if e.status = "" then "info" else e.status
  let summary := strTrim e.summary
  let event_hash := strTake e.hash 10
  let paths := e.paths.filter (fun p => strTrim p ≠ "")
  let line := "- E" ++ toString e.seq ++ " ["
    ++ (if e.timestamp = "" then "?" else e.timestamp) ++ "] "
    ++ kind ++ "/" ++ status ++ ": " ++ summary
  let line :=
    if paths.isEmpty then line
    else line ++ " | paths: " ++ String.intercalate ", " (paths.take 3)
  if event_hash = "" then line else line ++ " | hash:" ++ event_hash

/-- rehydrate.main: the lines of the ranked-events block, in selection
order. -/
def rendered_events (events : List LEvent) (terms : List String)
    (task_focus : String) (max_events : Nat) : List String :=
  (select_events events terms task_focus max_events).map render_event_line

/- ## Typed-memory aggregator (typed_memory.py) -/

/-- JSON values, as far as the typed-memory payload needs them.  Objects are
stored with their keys already sorted (see `JVal.mkObj`), matching
`json.dumps(..., sort_keys=True)`. -/
inductive JVal where
  | jnull : JVal
  | jbool : Bool → JVal
  | jnum : Int → JVal
  | jstr : String → JVal
  | jarr : List JVal → JVal
  | jobj : List (String × JVal) → JVal

/-- Object constructor sorting its keys (code-point order, as the Python
`sorted` does for `sort_keys=True`). -/
def JVal.mkObj (kvs : List (String × JVal)) : JVal :=
  .jobj (sortBy (fun a b => !(charListLt b.1.data a.1.data)) kvs)

/-- String escaping of `json.dumps(..., ensure_ascii=False)`: backslash,
quote, and control characters. -/
def jescape_char (c : Char) : String :=
  if c = '"' then "\\\""
  else if c = '\\' then "\\\\"
  else if c = '\n' then "\\n"
  else if c = '\t' then "\\t"
  else if c = '\r' then "\\r"
  else if c.toNat < 32 then
    let dig : Nat → String := fun n =>
      String.singleton (if n < 10 then Char.ofNat (48 + n) else Char.ofNat (87 + n))
    "\\u00" ++ dig (c.toNat / 16) ++ dig (c.toNat % 16)
  else String.singleton c

/-- A JSON string literal as `json.dumps` renders it. -/
def jstring (s : String) : String :=
  "\"" ++ String.join (s.data.map jescape_char) ++ "\""

/-- Indentation of `n` spaces. -/
def jindent (n : Nat) : String := String.mk (List.replicate n ' ')

mutual
/-- The rendering of `json.dumps(v, ensure_ascii=False, indent=2,
sort_keys=True)` at nesting
depth `d` (keys are pre-sorted by `JVal.mkObj`). -/
def jdump : JVal → Nat → String
  | .jnull, _ => "null"
  | .jbool b, _ => if b then "true" else "false"
  | .jnum n, _ => toString n
  | .jstr s, _ => jstring s
  | .jarr [], _ => "[]"
  | .jarr (x :: xs), d =>
    "[\n" ++ String.intercalate ",\n" (jdumpList (x :: xs) (d + 1))
      ++ "\n" ++ jindent (2 * d) ++ "]"
  | .jobj [], _ => "\x7b\x7d"
  | .jobj (kv :: kvs), d =>
    "\x7b\n" ++ String.intercalate ",\n" (jdumpObj (kv :: kvs) (d + 1))
      ++ "\n" ++ jindent (2 * d) ++ "\x7d"

def jdumpList : List JVal → Nat → List String
  | [], _ => []
  | x :: xs, d => (jindent (2 * d) ++ jdump x d) :: jdumpList xs d

def jdumpObj : List (String × JVal) → Nat → List String
  | [], _ => []
  | (k, v) :: kvs, d =>
    (jindent (2 * d) ++ jstring k ++ ": " ++ jdump v d) :: jdumpObj kvs d
end

/-- Top-level `json.dumps(payload, ensure_ascii=False, indent=2,
sort_keys=True)`. -/
def jdumps (v : JVal) : String := jdump v 0

/-- A `collections.Counter` as an insertion-ordered association list. -/
def counter_add (c : List (String × Nat)) (k : String) : List (String × Nat) :=
  match c with
  | [] => [(k, 1)]
  | (k0, n) :: rest =>
    if k0 = k then (k0, n + 1) :: rest else (k0, n) :: counter_add rest k

/-- typed_memory._extract, the per-event counting loops: strip each value and
count it when non-empty. -/
def counter_add_all (c : List (String × Nat)) (ks : List String) :
    List (String × Nat) :=
  ks.foldl (fun acc k => if strTrim k = "" then acc else counter_add acc (strTrim k)) c

/-- The model of `Counter.most_common(limit)`: stable descending sort by count (ties keep
first-seen order), truncated to `limit`. -/
def most_common (c : List (String × Nat)) (limit : Nat) : List (String × Nat) :=
  (sortBy (fun a b => decide (b.2 ≤ a.2)) c).take limit

/-- typed_memory._top: render a counter row as `{"value": k, "count": n}`. -/
def top_row (kn : String × Nat) : JVal :=
  JVal.mkObj [("value", .jstr kn.1), ("count", .jnum kn.2)]

/-- typed_memory._extract: the normalized per-event snapshot appended to the
decision/risk/success lists. -/
def snapshot_json (ev : LEvent) : JVal :=
  JVal.mkObj
    [("seq", .jnum ev.seq), ("timestamp", .jstr ev.timestamp),
      ("hash", .jstr (strTake ev.hash 10)),
      ("kind", .jstr (strLower (strTrim ev.kind))),
      ("status", .jstr (strLower (strTrim ev.status))),
      ("summary", .jstr (strTrim ev.summary)),
      ("task", .jstr (strTrim ev.task))]

/-- typed_memory._extract decision test: decision-like kind, or the word
"decision" in the lower-cased summary. -/
def is_decision (ev : LEvent) : Bool :=
  let kind := strLower (strTrim ev.kind)
  let summary := strTrim ev.summary
  kind = "decision" || kind = "adr" || kind = "architecture-decision"
    || str_contains (strLower summary) "decision"

/-- typed_memory._extract risk test: warning/failure status or an
incident-like kind. -/
def is_risk (ev : LEvent) : Bool :=
  let kind := strLower (strTrim ev.kind)
  let status := strLower (strTrim ev.status)
  status = "failure" || status = "warning"
    || kind = "risk" || kind = "incident" || kind = "bug"

/-- typed_memory._extract success test. -/
def is_success (ev : LEvent) : Bool := strLower (strTrim ev.status) = "success"

/-- The full event record as it sits on one ledger line (canonical keys with
falsy fields removed, plus `hash`); this is what `latest_event` passes
through verbatim.  The model assumes schema-shaped records, which is what
the append operation writes. -/
def event_json (ev : LEvent) : JVal :=
  JVal.mkObj
    (([("seq", JVal.jnum ev.seq)]
      ++ (match optStr ev.timestamp with
          | some s => [("timestamp", JVal.jstr s)] | none => [])
      ++ (match optStr ev.kind with
          | some s => [("kind", JVal.jstr s)] | none => [])
      ++ (match optStr ev.status with
          | some s => [("status", JVal.jstr s)] | none => [])
      ++ (match optStr ev.summary with
          | some s => [("summary", JVal.jstr s)] | none => [])
      ++ (match optStr ev.task with
          | some s => [("task", JVal.jstr s)] | none => [])
      ++ (if ev.paths.isEmpty then []
          else [("paths", JVal.jarr (ev.paths.map JVal.jstr))])
      ++ (if ev.symbols.isEmpty then []
          else [("symbols", JVal.jarr (ev.symbols.map JVal.jstr))])
      ++ (if ev.commands.isEmpty then []
          else [("commands", JVal.jarr (ev.commands.map JVal.jstr))])
      ++ (match optStr ev.hash with
          | some s => [("hash", JVal.jstr s)] | none => [])))

/-- typed_memory._extract plus the three path fields added by main: the
typed-memory payload as a JSON object.  `now` is the `generated_at` clock
reading (`utc_now_iso()`). -/
def typed_payload (now : String) (events : List LEvent) (max_items : Nat)
    (repo_root memory_root events_file : String) : JVal :=
  let decisions := (events.filter is_decision).map snapshot_json
  let risks := (events.filter is_risk).map snapshot_json
  let successes := (events.filter is_success).map snapshot_json
  let task_counter := events.foldl
    (fun c ev => if strTrim ev.task = "" then c else counter_add c (strTrim ev.task)) []
  let path_counter := events.foldl (fun c ev => counter_add_all c ev.paths) []
  let symbol_counter := events.foldl (fun c ev => counter_add_all c ev.symbols) []
  let command_counter := events.foldl (fun c ev => counter_add_all c ev.commands) []
  JVal.mkObj
    [("schema", .jstr "context-continuity-typed-memory-v1"),
      ("generated_at", .jstr now),
      ("event_count", .jnum events.length),
      ("decision_count", .jnum decisions.length),
      ("risk_count", .jnum risks.length),
      ("success_count", .jnum successes.length),
      ("top_tasks", .jarr ((most_common task_counter max_items).map top_row)),
      ("top_paths", .jarr ((most_common path_counter max_items).map top_row)),
      ("top_symbols", .jarr ((most_common symbol_counter max_items).map top_row)),
      ("top_commands", .jarr ((most_common command_counter max_items).map top_row)),
      ("recent_decisions", .jarr (takeLast max_items decisions)),
      ("open_risks", .jarr (takeLast max_items risks)),
      ("recent_successes", .jarr (takeLast max_items successes)),
      ("latest_event",
        match events.getLast? with
        | some ev => event_json ev
        | none => JVal.mkObj []),
      ("repo_root", .jstr repo_root),
      ("memory_root", .jstr memory_root),
      ("events_file", .jstr events_file)]

/-- typed_memory.main: restrict to the window (`events[-max_events:]` when
positive), build the payload, and serialize it
(`new_json = json.dumps(...) + "\n"`). -/
def typed_new_json (now : String) (events : List LEvent)
    (max_events max_items : Nat) (repo_root memory_root events_file : String) :
    String :=
  let evs := if 0 < max_events then takeLast max_events events else events
  jdumps (typed_payload now evs (max 1 max_items) repo_root memory_root events_file)
    ++ "\n"

/-- typed_memory.main: `changed = old_json != new_json`, comparing the stored
serialization with the freshly computed one. -/
def typed_changed (old_json new_json : String) : Bool :=
  decide (old_json ≠ new_json)

/-- typed_memory.main / context_ops.main: the `--record-event` policy that
gates whether a ledger event is emitted. -/
def should_record (mode : String) (changed : Bool) : Bool :=
  mode = "always" || (mode = "on-change" && changed)

/- ## Concrete inputs used by witnesses and counterexamples -/

/-- A concrete digest function (constant, hence never empty) used to
instantiate `hashFn` in closed witnesses. -/
def hfix : CanonEvent → String := fun _ => "h"

/-- A well-formed first append call. -/
def callA : AppendCall :=
  ⟨⟨"note", "info", "first step", "manual", none, [], [], [], [], []⟩,
    "id1", "t1", "r", "rid"⟩

/-- A well-formed second append call. -/
def callB : AppendCall :=
  ⟨⟨"note", "info", "second step", "manual", none, [], [], [], [], []⟩,
    "id2", "t2", "r", "rid"⟩

/-- An append input with a whitespace-only summary and an unrecognized
status. -/
def badInput : AppendInput :=
  ⟨"note", "bogus", "   ", "manual", none, [], [], [], [], []⟩

/-- A ref set with one branch that has a head commit. -/
def refsC10 : Refs := ⟨"main", [("main", some "c0")]⟩

/-- A ref set whose only branch has no head commit. -/
def refsC6 : Refs := ⟨"main", [("main", none)]⟩

/-- A ref set with a branch `a` that has a head commit. -/
def refsC6w : Refs := ⟨"main", [("a", some "c")]⟩

/-- A ref set where `a` has a head and `b` is headless. -/
def refsC5 : Refs := ⟨"main", [("a", some "c1"), ("b", none)]⟩

/-- A ref set where `a` and `b` have different heads. -/
def refsC5w : Refs := ⟨"main", [("a", some "s1"), ("b", some "t1")]⟩

/-- Two candidate blocks whose costs are 3 and 2 tokens. -/
def blocksC4 : List (String × String) := [("A", "ab"), ("B", "x")]

/-- An older ledger event with status failure (scores high). -/
def e1C7 : LEvent :=
  ⟨1, "t1", "note", "failure", "older failing step", "", [], [], [], "h1"⟩

/-- A more recent ledger event with status info (scores lower). -/
def e2C7 : LEvent :=
  ⟨2, "t2", "note", "info", "recent note", "", [], [], [], "h2"⟩

/- ## Theorems -/

/-- The last element of a nonempty list, as a `get` at the last index. -/
theorem getLast?_eq_get_last (L : List LedgerEvent) (i : Nat)
    (hi : i + 1 = L.length) :
    L.getLast? = some (L.get ⟨i, by omega⟩) := by
  have hidx : L.length - 1 = i := by omega
  rw [List.getLast?_eq_getElem?, hidx,
    List.getElem?_eq_getElem (by omega : i < L.length)]
  simp only [List.get_eq_getElem]

/-- The stored hash of an appended record is the digest of its own canonical
form (`event["hash"] = hash_event(event_no_hash)`). -/
theorem append_record_hash (hashFn : CanonEvent → String)
    (L : List LedgerEvent) (inp : AppendInput) (eventId ts rr rid : String) :
    (append_record hashFn L inp eventId ts rr rid).hash
      = hashFn (append_record hashFn L inp eventId ts rr rid).canon := rfl

/-- An appended record links to the (non-empty) hash of the last record. -/
theorem append_record_prev_hash (hashFn : CanonEvent → String)
    (L : List LedgerEvent) (inp : AppendInput) (eventId ts rr rid : String)
    (l : LedgerEvent) (hlast : L.getLast? = some l) (hne : l.hash ≠ "") :
    (append_record hashFn L inp eventId ts rr rid).canon.prev_hash
      = some l.hash := by
  unfold append_record
  rw [hlast]
  simp [optStr, hne]

/-- The chain invariant holds of the empty ledger. -/
theorem chain_inv_nil (hashFn : CanonEvent → String) : chain_inv hashFn [] := by
  constructor
  · intro i h1
    simp at h1
  · intro i h
    simp at h

/-- Appending one suitably linked record preserves the chain invariant. -/
theorem chain_inv_snoc (hashFn : CanonEvent → String) (L : List LedgerEvent)
    (e : LedgerEvent) (hL : chain_inv hashFn L)
    (hlink : ∀ l, L.getLast? = some l → e.canon.prev_hash = some l.hash)
    (hh : e.hash = hashFn e.canon) : chain_inv hashFn (L ++ [e]) := by
  obtain ⟨hprev, hhash⟩ := hL
  constructor
  · intro i h1
    have h1l : i + 1 < L.length + 1 := by
      simpa using h1
    simp only [List.get_eq_getElem]
    by_cases hi : i + 1 < L.length
    · rw [List.getElem_append_left hi, List.getElem_append_left (Nat.lt_of_succ_lt hi)]
      have hgoal := hprev i hi
      simpa only [List.get_eq_getElem] using hgoal
    · have hi1 : i + 1 = L.length := by omega
      rw [List.getElem_append_right (by omega : L.length ≤ i + 1)]
      rw [List.getElem_append_left (by omega : i < L.length)]
      simp only [show i + 1 - L.length = 0 from by omega, List.getElem_cons_zero]
      have hlast := getLast?_eq_get_last L i hi1
      have := hlink _ hlast
      simpa only [List.get_eq_getElem] using this
  · intro i h
    have hl : i < L.length + 1 := by
      simpa using h
    simp only [List.get_eq_getElem]
    by_cases hi : i < L.length
    · rw [List.getElem_append_left hi]
      have hgoal := hhash i hi
      simpa only [List.get_eq_getElem] using hgoal
    · rw [List.getElem_append_right (by omega : L.length ≤ i)]
      simp only [show i - L.length = 0 from by omega, List.getElem_cons_zero]
      exact hh

/-- One append preserves the chain invariant (the inductive heart of C1). -/
theorem chain_inv_append (hashFn : CanonEvent → String)
    (hne : ∀ c, hashFn c ≠ "") (L : List LedgerEvent) (c : AppendCall)
    (hL : chain_inv hashFn L) : chain_inv hashFn (append_call hashFn L c) := by
  show chain_inv hashFn
    (L ++ [append_record hashFn L c.inp c.event_id c.timestamp c.repo_root c.repo_id])
  apply chain_inv_snoc hashFn L _ hL
  · intro l hlast
    apply append_record_prev_hash hashFn L c.inp c.event_id c.timestamp
      c.repo_root c.repo_id l hlast
    have hmem : l ∈ L := by
      have h0 : L ≠ [] := by
        intro h
        rw [h] at hlast
        exact Option.noConfusion hlast
      have := List.getLast?_eq_getLast L h0
      rw [this] at hlast
      have heq : L.getLast h0 = l := Option.some.inj hlast
      rw [← heq]
      exact List.getLast_mem h0
    obtain ⟨j, hj, hjl⟩ := List.mem_iff_getElem.mp hmem
    have hlh : l.hash = hashFn l.canon := by
      rw [← hjl]
      simpa only [List.get_eq_getElem] using hL.2 j hj
    rw [hlh]
    exact hne _
  · exact append_record_hash hashFn L c.inp c.event_id c.timestamp c.repo_root c.repo_id

/-- C1: in a ledger produced solely by successive appends starting from an
empty or absent file, every event after the first carries `prev_hash` equal
to the stored hash of the previous event, and the stored hash of every
event is the
digest (`hashFn`, abstracting sha256 over the stable serialization) of its
own canonical form with the hash field excluded.  `hne` records that sha256
hex digests are never the empty string. -/
theorem C1_chain_integrity (hashFn : CanonEvent → String)
    (hne : ∀ c, hashFn c ≠ "") (calls : List AppendCall) :
    (∀ i (h1 : i + 1 < (build_ledger hashFn calls).length),
        ((build_ledger hashFn calls).get ⟨i + 1, h1⟩).canon.prev_hash
          = some (((build_ledger hashFn calls).get ⟨i, Nat.lt_of_succ_lt h1⟩).hash))
    ∧ (∀ i (h : i < (build_ledger hashFn calls).length),
        ((build_ledger hashFn calls).get ⟨i, h⟩).hash
          = hashFn ((build_ledger hashFn calls).get ⟨i, h⟩).canon) := by
  have main : ∀ (cs : List AppendCall) (L : List LedgerEvent),
      chain_inv hashFn L → chain_inv hashFn (cs.foldl (append_call hashFn) L) := by
    intro cs
    induction cs with
    | nil => intro L h; exact h
    | cons c cs2 ih =>
      intro L h
      exact ih _ (chain_inv_append hashFn hne L c h)
  exact main calls [] (chain_inv_nil hashFn)

/-- The concrete digest function never returns the empty string. -/
theorem hfix_ne (c : CanonEvent) : hfix c ≠ "" := by
  show "h" ≠ ""
  decide

/-- Witness for C1 at a concrete two-event ledger with a concrete digest
function. -/
theorem C1_chain_integrity_witness :
    ((build_ledger hfix [callA, callB]).get ⟨1, by decide⟩).canon.prev_hash
      = some (((build_ledger hfix [callA, callB]).get ⟨0, by decide⟩).hash) := by
  exact (C1_chain_integrity hfix hfix_ne [callA, callB]).1 0 (by decide)

/-- C2 counterexample: an append call whose summary trims to empty and whose
status is unrecognized does not fail — it appends exactly one record (the
summary field is simply dropped from the canonical form, and the bogus
status is stored as-is). -/
theorem C2_counterexample :
    (append_event hfix [] badInput "id1" "t1" "r" "rid").length = 1
    ∧ (append_record hfix [] badInput "id1" "t1" "r" "rid").canon.summary = none
    ∧ (append_record hfix [] badInput "id1" "t1" "r" "rid").canon.status
        = some "bogus" := by
  decide

/-- C2 amended: the append operation performs no summary/status validation;
every call appends exactly one record regardless of the summary and status
values, and a summary that is empty after trimming is stored with the
summary field omitted rather than causing a failure. -/
theorem C2_append_always_appends (hashFn : CanonEvent → String)
    (ledger : List LedgerEvent) (inp : AppendInput) (eventId ts rr rid : String) :
    (append_event hashFn ledger inp eventId ts rr rid).length = ledger.length + 1
    ∧ (strTrim inp.summary = "" →
        (append_record hashFn ledger inp eventId ts rr rid).canon.summary = none) := by
  constructor
  · simp [append_event]
  · intro h
    show optStr (strTrim inp.summary) = none
    rw [h]
    rfl

/-- Witness for the amended C2 statement at the concrete bad input. -/
theorem C2_append_always_appends_witness :
    (append_event hfix [] badInput "id1" "t1" "r" "rid").length = 0 + 1
    ∧ (append_record hfix [] badInput "id1" "t1" "r" "rid").canon.summary = none := by
  have h := C2_append_always_appends hfix [] badInput "id1" "t1" "r" "rid"
  exact ⟨h.1, h.2 (by decide)⟩

/-- Chain normalization is idempotent, for every starting accumulator. -/
theorem normalize_chain_aux_idem (H : α → Int → Option String → String) :
    ∀ (l : List (RawEvent α)) (prev : String) (seq : Int),
      normalize_chain_aux H prev seq (normalize_chain_aux H prev seq l)
        = normalize_chain_aux H prev seq l := by
  intro l
  induction l with
  | nil =>
    intro prev seq
    rfl
  | cons e rest ih =>
    intro prev seq
    simp only [normalize_chain_aux]
    exact congrArg _ (ih _ _)

/-- Chain normalization preserves every non-chain field (`rest`). -/
theorem normalize_chain_aux_rest (H : α → Int → Option String → String) :
    ∀ (l : List (RawEvent α)) (prev : String) (seq : Int),
      (normalize_chain_aux H prev seq l).map RawEvent.rest = l.map RawEvent.rest := by
  intro l
  induction l with
  | nil =>
    intro prev seq
    rfl
  | cons e rest ih =>
    intro prev seq
    simp only [normalize_chain_aux, List.map_cons]
    exact congrArg _ (ih _ _)

/-- The elementwise `!=` scan of a list against itself finds no difference. -/
theorem zip_self_any_ne [DecidableEq β] (l : List β) :
    (l.zip l).any (fun p => decide (p.1 ≠ p.2)) = false := by
  induction l with
  | nil => rfl
  | cons x xs ih => simpa using ih

/-- C3: repairing an already repaired chain changes nothing (a second run
reports `changed = false`), and repair preserves the value of every field
other than `seq`, `prev_hash` and `hash` in every record. -/
theorem C3_repair_idempotent {α : Type} [DecidableEq α]
    (H : α → Int → Option String → String) (events : List (RawEvent α)) :
    normalize_chain H (normalize_chain H events) = normalize_chain H events
    ∧ (normalize_chain H events).map RawEvent.rest = events.map RawEvent.rest
    ∧ chain_changed H (normalize_chain H events) = false := by
  refine ⟨normalize_chain_aux_idem H events "" 0,
    normalize_chain_aux_rest H events "" 0, ?_⟩
  unfold chain_changed
  rw [show normalize_chain H (normalize_chain H events) = normalize_chain H events
    from normalize_chain_aux_idem H events "" 0]
  exact zip_self_any_ne _

/-- C10 counterexample: a `from` start point that is non-empty and not an
existing branch name (here `"c1 "`, with a trailing blank) is stored
trimmed, not verbatim: the new head is `"c1"`. -/
theorem C10_counterexample :
    ("c1 " ≠ "")
    ∧ ((refsC10.branches.lookup "c1 ").isSome = false)
    ∧ (branch_action refsC10 "feat" "c1 ").ok = true
    ∧ (branch_action refsC10 "feat" "c1 ").head = some "c1"
    ∧ (branch_action refsC10 "feat" "c1 ").head ≠ some "c1 " := by
  decide

/-- C10 amended: for a fresh branch name and a trimmed `from` string that is
non-empty and not an existing branch name, the branch action succeeds and
stores that trimmed string as the head of the new branch exactly as given — the
action consults only the ref set, never the commit store (its model takes no
commit store at all). -/
theorem C10_branch_literal_head (refs : Refs) (nameRaw fromRaw : String)
    (hname : strTrim nameRaw ≠ "")
    (hnew : (refs.branches.lookup (strTrim nameRaw)).isSome = false)
    (hfrom : strTrim fromRaw ≠ "")
    (hnb : (refs.branches.lookup (strTrim fromRaw)).isSome = false) :
    (branch_action refs nameRaw fromRaw).ok = true
    ∧ (branch_action refs nameRaw fromRaw).head = some (strTrim fromRaw)
    ∧ (branch_action refs nameRaw fromRaw).refs.branches
        = setBranch refs.branches (strTrim nameRaw) (some (strTrim fromRaw)) := by
  unfold branch_action resolve_from_ref
  simp [hname, hnew, hfrom, hnb]

/-- Witness for the amended C10 statement at a concrete ref set. -/
theorem C10_branch_literal_head_witness :
    (branch_action refsC10 "feat" "c1").ok = true
    ∧ (branch_action refsC10 "feat" "c1").head = some (strTrim "c1")
    ∧ (branch_action refsC10 "feat" "c1").refs.branches
        = setBranch refsC10.branches (strTrim "feat") (some (strTrim "c1")) := by
  exact C10_branch_literal_head refsC10 "feat" "c1"
    (by decide) (by decide) (by decide) (by decide)

/-- C6 counterexample: merging a headless branch into itself (equal heads,
both null) is rejected with an error (`source branch has no head commit`),
not reported as a successful no-op; nothing is written either way. -/
theorem C6_counterexample :
    (refsC6.branches.lookup "main" = some none)
    ∧ (merge_action refsC6 "main" "main" "x").ok = false
    ∧ (merge_action refsC6 "main" "main" "x").refs = refsC6
    ∧ (merge_action refsC6 "main" "main" "x").commits = [] := by
  decide

/-- C6 amended: for every merge whose source branch has a non-empty head
equal to the head of the target branch (which covers merging a branch with
a head
into itself), the operation reports success, takes the documented no-op
path, and writes nothing: the ref set is unchanged and no commit file is
created. -/
theorem C6_merge_noop (refs : Refs) (sourceRaw targetRaw cid : String)
    (sh : String)
    (hsne : strTrim sourceRaw ≠ "")
    (hsl : refs.branches.lookup (strTrim sourceRaw) = some (some sh))
    (hshne : sh ≠ "")
    (htl : refs.branches.lookup
        (if strTrim targetRaw = "" then activeOf refs else strTrim targetRaw)
      = some (some sh)) :
    merge_action refs sourceRaw targetRaw cid = ⟨true, true, refs, []⟩ := by
  unfold merge_action
  simp [hsne, hsl, htl, truthyHead, hshne]

/-- Witness for the amended C6 statement: merging branch `a` into itself. -/
theorem C6_merge_noop_witness :
    merge_action refsC6w "a" "a" "x" = ⟨true, true, refsC6w, []⟩ := by
  exact C6_merge_noop refsC6w "a" "a" "x" "c"
    (by decide) (by decide) (by decide) (by decide)

/-- C5 counterexample: merging a branch with head `c1` into a headless
branch satisfies the hypotheses of the claim (known branches, source has a
head,
heads differ) but produces a single-parent commit, so the parent list is not
`[target_head, source_head]` with both parents present. -/
theorem C5_counterexample :
    (refsC5.branches.lookup "a" = some (some "c1"))
    ∧ (refsC5.branches.lookup "b" = some none)
    ∧ (merge_action refsC5 "a" "b" "m1").ok = true
    ∧ (merge_action refsC5 "a" "b" "m1").commits = [("m1", ["c1"])]
    ∧ ((merge_action refsC5 "a" "b" "m1").commits.map (fun c => c.2.length)) = [1] := by
  decide

/-- C5 amended: the parent list of the merge commit is `[target_head,
source_head]` restricted to the heads that actually exist; in particular
when both branches have (non-empty) heads and they differ, the parent list
is exactly `[target_head, source_head]`, both present and without
duplicates. -/
theorem C5_merge_parents (refs : Refs) (sourceRaw targetRaw cid : String)
    (s t : String)
    (hsne : strTrim sourceRaw ≠ "")
    (hsl : refs.branches.lookup (strTrim sourceRaw) = some (some s))
    (hs : s ≠ "")
    (htl : refs.branches.lookup
        (if strTrim targetRaw = "" then activeOf refs else strTrim targetRaw)
      = some (some t))
    (ht : t ≠ "")
    (hst : s ≠ t) :
    (merge_action refs sourceRaw targetRaw cid).ok = true
    ∧ (merge_action refs sourceRaw targetRaw cid).commits = [(cid, [t, s])]
    ∧ ([t, s] : List String).Nodup := by
  have hne2 : (some s : Option String) ≠ some t := by
    intro h
    exact hst (Option.some.inj h)
  unfold merge_action
  simp [hsne, hsl, htl, truthyHead, hs, ht, hne2, Ne.symm hst]

/-- Witness for the amended C5 statement: merging `a` (head `s1`) into `b`
(head `t1`). -/
theorem C5_merge_parents_witness :
    (merge_action refsC5w "a" "b" "m2").ok = true
    ∧ (merge_action refsC5w "a" "b" "m2").commits = [("m2", ["t1", "s1"])]
    ∧ (["t1", "s1"] : List String).Nodup := by
  exact C5_merge_parents refsC5w "a" "b" "m2" "s1" "t1"
    (by decide) (by decide) (by decide) (by decide) (by decide) (by decide)

/-- Greedy packing: the final running total is monotone when both the budget
and the starting total grow, provided the starting totals are equal or the
larger one already exceeds the smaller budget.  This invariant is exactly
what the packing loop maintains after the first point where the two runs
diverge. -/
theorem pack_blocks_used_mono :
    ∀ (blocks : List (String × String)) (B B2 u u2 : Nat),
      B ≤ B2 → u ≤ u2 → (u = u2 ∨ B < u2) →
      (pack_blocks B u blocks).used ≤ (pack_blocks B2 u2 blocks).used := by
  intro blocks
  induction blocks with
  | nil =>
    intro B B2 u u2 hB hu hd
    simpa [pack_blocks] using hu
  | cons tb rest ih =>
    intro B B2 u u2 hB hu hd
    obtain ⟨title, body⟩ := tb
    by_cases hb : strTrim body = ""
    · rw [pack_blocks, pack_blocks, if_pos hb, if_pos hb]
      exact ih B B2 u u2 hB hu hd
    · rw [pack_blocks, pack_blocks, if_neg hb, if_neg hb]
      simp only []
      by_cases c1 : u + approx_tokens (block_text title body) ≤ B
        <;> by_cases c2 : u2 + approx_tokens (block_text title body) ≤ B2
      · rw [if_pos c1, if_pos c2]
        apply ih B B2 _ _ hB (by omega)
        rcases hd with h | h
        · exact Or.inl (by omega)
        · exact Or.inr (by omega)
      · rw [if_pos c1, if_neg c2]
        rcases hd with h | h
        · omega
        · exact ih B B2 _ _ hB (by omega) (Or.inr h)
      · rw [if_neg c1, if_pos c2]
        exact ih B B2 _ _ hB (by omega) (Or.inr (by omega))
      · rw [if_neg c1, if_neg c2]
        exact ih B B2 _ _ hB hu hd

/-- C4 counterexample: with header `"H"` (cost 1) and candidate blocks of
costs 3 and 2, block `B` is included under budget 3 but omitted under the
larger budget 4, because the higher-priority block `A` newly fits and
consumes the budget — so raising the budget can remove a previously
included block. -/
theorem C4_counterexample :
    (3 ≤ 4)
    ∧ (pack_blocks 3 (approx_tokens "H") blocksC4).planner
        = [("A", 3, false), ("B", 2, true)]
    ∧ (pack_blocks 4 (approx_tokens "H") blocksC4).planner
        = [("A", 3, true), ("B", 2, false)] := by
  decide

/-- C4 amended: increasing the budget while holding all other compiler
inputs fixed never decreases the total tokens used; the block-inclusion half
of the claim fails (see the counterexample), because the greedy loop may
spend the larger budget on a higher-priority block and then skip a
lower-priority block that previously fit. -/
theorem C4_budget_token_monotone (header : String)
    (blocks : List (String × String)) (B B2 : Nat) (hB : B ≤ B2) :
    (pack_blocks B (approx_tokens header) blocks).used
      ≤ (pack_blocks B2 (approx_tokens header) blocks).used :=
  pack_blocks_used_mono blocks B B2 _ _ hB le_rfl (Or.inl rfl)

/-- Witness for the amended C4 statement at the concrete block list. -/
theorem C4_budget_token_monotone_witness :
    (pack_blocks 3 (approx_tokens "H") blocksC4).used
      ≤ (pack_blocks 4 (approx_tokens "H") blocksC4).used := by
  exact C4_budget_token_monotone "H" blocksC4 3 4 (by decide)

/-- Membership in a stable insertion. -/
theorem mem_insort (le : α → α → Bool) (x : α) :
    ∀ (l : List α) (y : α), y ∈ insort le x l ↔ y = x ∨ y ∈ l := by
  intro l
  induction l with
  | nil =>
    intro y
    simp [insort]
  | cons z zs ih =>
    intro y
    by_cases hxz : le x z = true
    · rw [insort, if_pos hxz]
      simp [or_comm, or_assoc, or_left_comm]
    · rw [insort, if_neg hxz]
      simp only [List.mem_cons, ih]
      tauto

/-- Stable insertion preserves sortedness for a total, transitive
comparison. -/
theorem pairwise_insort (le : α → α → Bool)
    (htrans : ∀ a b c, le a b = true → le b c = true → le a c = true)
    (htot : ∀ a b, le a b = true ∨ le b a = true) (x : α) :
    ∀ l, List.Pairwise (fun a b => le a b = true) l →
      List.Pairwise (fun a b => le a b = true) (insort le x l) := by
  intro l
  induction l with
  | nil =>
    intro _
    simp [insort]
  | cons y ys ih =>
    intro h
    have hy : ∀ z ∈ ys, le y z = true := fun z hz => List.rel_of_pairwise_cons h hz
    have hys := List.Pairwise.of_cons h
    by_cases hxy : le x y = true
    · rw [insort, if_pos hxy]
      refine List.Pairwise.cons ?_ h
      intro z hz
      rcases List.mem_cons.mp hz with heq | hz
      · rw [heq]
        exact hxy
      · exact htrans x y z hxy (hy z hz)
    · rw [insort, if_neg hxy]
      refine List.Pairwise.cons ?_ (ih hys)
      intro z hz
      rcases (mem_insort le x ys z).mp hz with heq | hz
      · rw [heq]
        rcases htot x y with h1 | h1
        · exact absurd h1 hxy
        · exact h1
      · exact hy z hz

/-- The function `sortBy` sorts with respect to a total, transitive comparison. -/
theorem pairwise_sortBy (le : α → α → Bool)
    (htrans : ∀ a b c, le a b = true → le b c = true → le a c = true)
    (htot : ∀ a b, le a b = true ∨ le b a = true) (l : List α) :
    List.Pairwise (fun a b => le a b = true) (sortBy le l) := by
  induction l with
  | nil => simp [sortBy]
  | cons x xs ih =>
    show List.Pairwise (fun a b => le a b = true) (insort le x (sortBy le xs))
    exact pairwise_insort le htrans htot x (sortBy le xs) ih

/-- The ranking key comparison is transitive. -/
theorem key_ge_trans (a b c : (Nat × Int) × LEvent)
    (h1 : key_ge a b = true) (h2 : key_ge b c = true) : key_ge a c = true := by
  simp only [key_ge, decide_eq_true_eq] at h1 h2 ⊢
  rcases h1 with h1 | ⟨h1e, h1i⟩ <;> rcases h2 with h2 | ⟨h2e, h2i⟩
  · exact Or.inl (by omega)
  · exact Or.inl (by omega)
  · exact Or.inl (by omega)
  · exact Or.inr ⟨by omega, by omega⟩

/-- The ranking key comparison is total. -/
theorem key_ge_total (a b : (Nat × Int) × LEvent) :
    key_ge a b = true ∨ key_ge b a = true := by
  simp only [key_ge, decide_eq_true_eq]
  omega

/-- C7 counterexample: with an empty query and no task focus, an older
failure event outranks a more recent info event, and the selection is
rendered in that ranked order — `[e1C7, e2C7]` — not in reverse-chronological
order, which for this selection would be `[e2C7, e1C7]` (the more recent
`e2C7` first). -/
theorem C7_counterexample :
    select_events [e1C7, e2C7] [] "" 2 = [e1C7, e2C7]
    ∧ rendered_events [e1C7, e2C7] [] "" 2
        = [render_event_line e1C7, render_event_line e2C7]
    ∧ [e1C7, e2C7] ≠ [e2C7, e1C7] := by
  decide

/-- C7 amended: the top `max_events` events are rendered in the ranked order
itself — sorted by descending score with ties broken toward more recent
events — not re-sorted into reverse-chronological order; the ranked-events
block walks the selection exactly as ranked. -/
theorem C7_selection_order (events : List LEvent) (terms : List String)
    (task_focus : String) (k : Nat) :
    List.Pairwise (fun a b => key_ge a b = true)
      ((rank_events events terms task_focus).take k)
    ∧ select_events events terms task_focus k
        = ((rank_events events terms task_focus).take k).map (fun p => p.2)
    ∧ rendered_events events terms task_focus k
        = (select_events events terms task_focus k).map render_event_line := by
  refine ⟨?_, rfl, rfl⟩
  apply List.Pairwise.sublist (List.take_sublist k _)
  exact pairwise_sortBy key_ge key_ge_trans key_ge_total _

/-- The final running total of the packing loop is the starting total plus
the costs of exactly the included blocks. -/
theorem pack_blocks_used_sum :
    ∀ (blocks : List (String × String)) (B u : Nat),
      (pack_blocks B u blocks).used
        = u + ((pack_blocks B u blocks).planner.filterMap
            (fun p => if p.2.2 = true then some p.2.1 else none)).sum := by
  intro blocks
  induction blocks with
  | nil =>
    intro B u
    simp [pack_blocks]
  | cons tb rest ih =>
    intro B u
    obtain ⟨title, body⟩ := tb
    by_cases hb : strTrim body = ""
    · rw [pack_blocks, if_pos hb]
      exact ih B u
    · rw [pack_blocks, if_neg hb]
      simp only []
      by_cases c1 : u + approx_tokens (block_text title body) ≤ B
      · rw [if_pos c1]
        show (pack_blocks B (u + approx_tokens (block_text title body)) rest).used
          = u + (approx_tokens (block_text title body)
              :: (pack_blocks B (u + approx_tokens (block_text title body)) rest).planner.filterMap
                  (fun p => if p.2.2 = true then some p.2.1 else none)).sum
        rw [List.sum_cons, ih B (u + approx_tokens (block_text title body))]
        omega
      · rw [if_neg c1]
        show (pack_blocks B u rest).used
          = u + ((pack_blocks B u rest).planner.filterMap
              (fun p => if p.2.2 = true then some p.2.1 else none)).sum
        exact ih B u

/-- C8 counterexample: in a concrete run the document ends with the
budget-summary footer, yet the reported running total (1, the cost of the
header alone) excludes the cost of the footer — the footer is never counted into the
running total, last or otherwise. -/
theorem C8_counterexample :
    (compile_chunks 100 "H" [] "E").1.head? = some "H"
    ∧ (compile_chunks 100 "H" [] "E").1.getLast? = some (footer_text 1 [] "E")
    ∧ (compile_chunks 100 "H" [] "E").2 = 1
    ∧ (1 : Nat) ≠ 1 + approx_tokens (footer_text 1 [] "E") := by
  decide

/-- C8 amended: the header and the budget-summary footer are always included
(first and last chunk of the output document), and the header cost is
counted first — the running total is the header cost plus the costs of the
included blocks; the footer is appended after the total is finalized and its
cost is never added to that total. -/
theorem C8_header_footer (budget : Nat) (header : String)
    (blocks : List (String × String)) (events_path : String) :
    (compile_chunks budget header blocks events_path).1.head? = some header
    ∧ (compile_chunks budget header blocks events_path).1.getLast?
        = some (footer_text (pack_blocks budget (approx_tokens header) blocks).used
            (pack_blocks budget (approx_tokens header) blocks).omitted events_path)
    ∧ (compile_chunks budget header blocks events_path).2
        = approx_tokens header
          + ((pack_blocks budget (approx_tokens header) blocks).planner.filterMap
              (fun p => if p.2.2 = true then some p.2.1 else none)).sum := by
  refine ⟨rfl, ?_, ?_⟩
  · show ((header :: (pack_blocks budget (approx_tokens header) blocks).chunks)
        ++ [footer_text (pack_blocks budget (approx_tokens header) blocks).used
            (pack_blocks budget (approx_tokens header) blocks).omitted events_path]).getLast?
      = _
    rw [List.getLast?_concat]
  · exact pack_blocks_used_sum blocks budget (approx_tokens header)

/-- C9 counterexample: two summarize runs over the same (empty) ledger and
the same window, taken one second apart, serialize to different bytes —
the payload embeds the clock reading in `generated_at` — so the second run
reports `changed = true` even though the ledger did not change. -/
theorem C9_counterexample :
    typed_new_json "2024-01-01T00:00:00Z" [] 500 12 "r" "m" "e"
      ≠ typed_new_json "2024-01-01T00:00:01Z" [] 500 12 "r" "m" "e"
    ∧ typed_changed (typed_new_json "2024-01-01T00:00:00Z" [] 500 12 "r" "m" "e")
        (typed_new_json "2024-01-01T00:00:01Z" [] 500 12 "r" "m" "e") = true := by
  decide

/-- C9 amended: the serialized summary is a pure function of the ledger,
window and clock reading, so re-running at the same clock reading against
the summary the previous run stored reports `changed = false` and emits no
ledger event under the on-change policy; in general a run is reported as
changed exactly when the fresh serialization differs from the stored one,
which is what gates event emission.  (Byte-identity across runs at
different clock readings fails, because the summary embeds `generated_at`;
see the counterexample.) -/
theorem C9_changed_gating (now : String) (events : List LEvent)
    (max_events max_items : Nat) (rr mr ef old : String) :
    (typed_changed old (typed_new_json now events max_events max_items rr mr ef) = false
      ↔ typed_new_json now events max_events max_items rr mr ef = old)
    ∧ typed_changed (typed_new_json now events max_events max_items rr mr ef)
        (typed_new_json now events max_events max_items rr mr ef) = false
    ∧ should_record "on-change"
        (typed_changed (typed_new_json now events max_events max_items rr mr ef)
          (typed_new_json now events max_events max_items rr mr ef)) = false := by
  have h2 : typed_changed (typed_new_json now events max_events max_items rr mr ef)
      (typed_new_json now events max_events max_items rr mr ef) = false := by
    unfold typed_changed
    simp
  refine ⟨?_, h2, ?_⟩
  · unfold typed_changed
    rw [decide_eq_false_iff_not, not_ne_iff, eq_comm]
  · rw [h2]
    decide
